import Mathlib

/-!
Verification of the GraphAI front-end (Vue SPA).

This file gives a shallow embedding of the client-side logic of the
repository that the claims concern:

* `step7LLMGenerateStream` in `frontend/src/api/intelligentChat.js`:
  the SSE-style stream reader (buffering on `"\n\n"`, `data: ` line
  parsing, `onChunk` / `onDone` / `onError` callback discipline);
* the streaming handler and typewriter effect of the LLM-generate tab
  (`handleExecute` / `typewriterEffect` in the LLMGenerateTab component);
* `convertV4ResultsToLLMFormat` (retrieval-result flattening, score
  scaling, sorting, Top-N truncation);
* the confirm-before-delete flows (`handleDeleteGraph`,
  `handleDeleteDocument`, `executeGraphitiWithMode`, the Cognee
  `handleExecute`) around `Modal.confirm`;
* the catch handlers of representative network calls;
* the request-body builders for `POST /intelligent-chat/smart-retrieval`.

Text is modelled as `List Char`; JS falsiness of a string field is
"absent or empty"; JSON payloads parsed by `JSON.parse` are abstracted
by a parsing function that is universally quantified in the theorems.
-/

/-- The fields of a parsed SSE `data:` JSON payload that
`step7LLMGenerateStream` inspects: `error`, `done`, `statistics`
(opaque payload, modelled by a tag), `content`. -/
structure SSEData where
  error : Option (List Char)
  done : Bool
  statistics : Option Nat
  content : Option (List Char)
deriving DecidableEq

/-- JS truthiness of an optional string field: present and non-empty. -/
def truthyStr : Option (List Char) → Bool
  | none => false
  | some s => !s.isEmpty

/-- One callback invocation of `step7LLMGenerateStream`:
`onChunk` with a string, `onChunk` with a statistics object,
`onDone`, or `onError`. -/
inductive CBEvent where
  | chunk (s : List Char)
  | stats (n : Nat)
  | done
  | error (e : List Char)
deriving DecidableEq

/-- `buffer.split('\n\n')` followed by `buffer = lines.pop() || ''`:
returns the complete event blocks (in order) and the retained trailing
buffer.  Leftmost, non-overlapping occurrences of `"\n\n"` separate
blocks, exactly as `String.prototype.split` does. -/
def splitEvents : List Char → List (List Char) × List Char
  | [] => ([], [])
  | [c] => ([], [c])
  | c :: d :: rest =>
    if c = '\n' ∧ d = '\n' then
      let p := splitEvents rest
      ([] :: p.1, p.2)
    else
      let p := splitEvents (d :: rest)
      match p.1 with
      | [] => ([], c :: p.2)
      | l :: ls => ((c :: l) :: ls, p.2)

theorem splitEvents_cons2_pos (rest : List Char) :
    splitEvents ('\n' :: '\n' :: rest) =
      ([] :: (splitEvents rest).1, (splitEvents rest).2) := by
  simp [splitEvents]

theorem splitEvents_cons2_neg (c d : Char) (rest : List Char)
    (h : ¬(c = '\n' ∧ d = '\n')) :
    splitEvents (c :: d :: rest) =
      (match (splitEvents (d :: rest)).1 with
       | [] => ([], c :: (splitEvents (d :: rest)).2)
       | l :: ls => ((c :: l) :: ls, (splitEvents (d :: rest)).2)) := by
  rw [splitEvents, if_neg h]

/-- If no complete block was found, the whole input is retained as the
buffer. -/
theorem splitEvents_fst_nil (a : List Char) (h : (splitEvents a).1 = []) :
    (splitEvents a).2 = a := by
  induction a using splitEvents.induct with
  | case1 => rfl
  | case2 c => rfl
  | case3 c d rest hcd ih =>
    obtain ⟨hc, hd⟩ := hcd
    subst hc; subst hd
    rw [splitEvents_cons2_pos] at h
    simp at h
  | case4 c d rest hcd p hp ih =>
    have hp' : (splitEvents (d :: rest)).1 = [] := hp
    rw [splitEvents_cons2_neg c d rest hcd] at h ⊢
    simp only [hp'] at h ⊢
    rw [ih hp']
  | case5 c d rest hcd p l ls hp ih =>
    have hp' : (splitEvents (d :: rest)).1 = l :: ls := hp
    rw [splitEvents_cons2_neg c d rest hcd] at h
    simp only [hp'] at h
    exact absurd h (List.cons_ne_nil _ _)

/-- Splitting a concatenation: the blocks of `a ++ b` are the blocks of
`a` followed by the blocks of `a`'s retained buffer prepended to `b`.
This is the associativity fact behind fragmentation invariance. -/
theorem splitEvents_append (a b : List Char) :
    splitEvents (a ++ b) =
      ((splitEvents a).1 ++ (splitEvents ((splitEvents a).2 ++ b)).1,
       (splitEvents ((splitEvents a).2 ++ b)).2) := by
  induction a using splitEvents.induct with
  | case1 => simp [splitEvents]
  | case2 c => simp [splitEvents]
  | case3 c d rest hcd ih =>
    obtain ⟨hc, hd⟩ := hcd
    subst hc; subst hd
    have hl : ('\n' :: '\n' :: rest) ++ b = '\n' :: '\n' :: (rest ++ b) := rfl
    rw [hl, splitEvents_cons2_pos, splitEvents_cons2_pos, ih]
    simp
  | case4 c d rest hcd p hp ih =>
    have hp' : (splitEvents (d :: rest)).1 = [] := hp
    have hbuf : (splitEvents (d :: rest)).2 = d :: rest := splitEvents_fst_nil _ hp'
    rw [splitEvents_cons2_neg c d rest hcd]
    simp only [hp', hbuf]
    simp
  | case5 c d rest hcd p l ls hp ih =>
    have hp' : (splitEvents (d :: rest)).1 = l :: ls := hp
    have hl : (c :: d :: rest) ++ b = c :: d :: (rest ++ b) := rfl
    have hl2 : (d :: rest) ++ b = d :: (rest ++ b) := rfl
    rw [splitEvents_cons2_neg c d rest hcd]
    simp only [hp']
    rw [hl, splitEvents_cons2_neg c d (rest ++ b) hcd, ← hl2, ih]
    simp only [hp']
    simp

/-- The characters of `'data: '` (the check `line.startsWith('data: ')`). -/
def dataPre : List Char := ['d', 'a', 't', 'a', ':', ' ']

/-- The callbacks fired for one parsed `data:` payload carrying neither
a truthy `error` nor a truthy `done`: a statistics chunk first (when
`statistics` is present), then a text chunk (when `content` is truthy). -/
def dataCallbacks (d : SSEData) : List CBEvent :=
  (match d.statistics with
   | some n => [CBEvent.stats n]
   | none => []) ++
  (if truthyStr d.content then [CBEvent.chunk (d.content.getD [])] else [])

/-- The `for (const line of lines)` loop of `step7LLMGenerateStream`:
lines not starting with `data: ` are skipped; payloads `JSON.parse`
rejects are logged and skipped; a truthy `error` fires `onError` and
returns from the read callback; a truthy `done` fires `onDone` and
returns; otherwise statistics/content chunks are forwarded via
`onChunk`.  Returns the fired callbacks and whether the loop returned
early (aborting the whole stream). -/
def processLines (parse : List Char → Option SSEData) :
    List (List Char) → List CBEvent × Bool
  | [] => ([], false)
  | l :: ls =>
    if dataPre.isPrefixOf l then
      match parse (l.drop 6) with
      | none => processLines parse ls
      | some d =>
        if truthyStr d.error then ([CBEvent.error (d.error.getD [])], true)
        else if d.done then ([CBEvent.done], true)
        else
          let p := processLines parse ls
          (dataCallbacks d ++ p.1, p.2)
    else processLines parse ls

/-- How the byte stream itself terminates: the reader reports
`done: true` (stream end), or a read rejects (`.catch` fires `onError`). -/
inductive StreamEnd where
  | ended
  | failed (e : List Char)
deriving DecidableEq

/-- The recursive `readStream` loop: each successful read is decoded and
appended to the buffer, the buffer is split on `"\n\n"` keeping the
trailing fragment, the complete blocks are handled, and — unless the
handler returned early — the next read is issued.  Stream end fires
`onDone` (the retained buffer is dropped); a failed read fires `onError`. -/
def readLoop (parse : List Char → Option SSEData) :
    List Char → List (List Char) → StreamEnd → List CBEvent
  | _, [], StreamEnd.ended => [CBEvent.done]
  | _, [], StreamEnd.failed e => [CBEvent.error e]
  | buf, r :: rs, t =>
    let sp := splitEvents (buf ++ r)
    let p := processLines parse sp.1
    if p.2 then p.1 else p.1 ++ readLoop parse sp.2 rs t

/-- `step7LLMGenerateStream` as a whole session: a non-OK HTTP response
throws the extracted error detail, reaching the outer `.catch`, which
fires `onError` and never starts reading; an OK response runs the read
loop starting from an empty buffer. -/
def step7Session (ok : Bool) (httpDetail : List Char)
    (parse : List Char → Option SSEData)
    (reads : List (List Char)) (t : StreamEnd) : List CBEvent :=
  if ok then readLoop parse [] reads t else [CBEvent.error httpDetail]

/-- The byte stream delivered over all reads. -/
def joinReads : List (List Char) → List Char
  | [] => []
  | r :: rs => r ++ joinReads rs

theorem processLines_append (parse : List Char → Option SSEData)
    (ls1 ls2 : List (List Char)) :
    processLines parse (ls1 ++ ls2) =
      (if (processLines parse ls1).2 then processLines parse ls1
       else ((processLines parse ls1).1 ++ (processLines parse ls2).1,
             (processLines parse ls2).2)) := by
  induction ls1 with
  | nil => simp [processLines]
  | cons l ls ih =>
    show processLines parse (l :: (ls ++ ls2)) = _
    by_cases hpre : dataPre.isPrefixOf l
    · rw [processLines, if_pos hpre, processLines, if_pos hpre]
      cases hparse : parse (l.drop 6) with
      | none => exact ih
      | some d =>
        by_cases herr : truthyStr d.error
        · simp [herr]
        · by_cases hdone : d.done
          · simp [herr, hdone]
          · simp only [herr, hdone, if_neg, Bool.false_eq_true, ite_false]
            rw [ih]
            by_cases hstop : (processLines parse ls).2
            · simp [hstop]
            · simp [hstop]
    · rw [processLines, if_neg hpre, processLines, if_neg hpre]
      exact ih

/-- Merging two adjacent reads does not change the fired callbacks. -/
theorem readLoop_merge (parse : List Char → Option SSEData)
    (buf r1 r2 : List Char) (rs : List (List Char)) (t : StreamEnd) :
    readLoop parse buf (r1 :: r2 :: rs) t =
      readLoop parse buf ((r1 ++ r2) :: rs) t := by
  have hsp : splitEvents (buf ++ (r1 ++ r2)) =
      ((splitEvents (buf ++ r1)).1 ++
        (splitEvents ((splitEvents (buf ++ r1)).2 ++ r2)).1,
       (splitEvents ((splitEvents (buf ++ r1)).2 ++ r2)).2) := by
    rw [← List.append_assoc]
    exact splitEvents_append (buf ++ r1) r2
  show (let sp := splitEvents (buf ++ r1)
        let p := processLines parse sp.1
        if p.2 then p.1 else p.1 ++ readLoop parse sp.2 (r2 :: rs) t) = _
  show _ = (let sp := splitEvents (buf ++ (r1 ++ r2))
            let p := processLines parse sp.1
            if p.2 then p.1 else p.1 ++ readLoop parse sp.2 rs t)
  simp only [hsp, processLines_append]
  by_cases h1 : (processLines parse (splitEvents (buf ++ r1)).1).2
  · simp [h1]
  · simp only [h1, Bool.false_eq_true, ite_false]
    show _ ++ (let sp := splitEvents ((splitEvents (buf ++ r1)).2 ++ r2)
               let p := processLines parse sp.1
               if p.2 then p.1 else p.1 ++ readLoop parse sp.2 rs t) = _
    by_cases h2 :
        (processLines parse (splitEvents ((splitEvents (buf ++ r1)).2 ++ r2)).1).2
    · simp [h2]
    · simp [h2, List.append_assoc]

/-- The callback sequence depends only on the delivered byte sequence:
any fragmentation collapses to a single read. -/
theorem readLoop_join (parse : List Char → Option SSEData) (t : StreamEnd) :
    ∀ (n : Nat) (reads : List (List Char)), reads.length ≤ n →
      readLoop parse [] reads t = readLoop parse [] [joinReads reads] t := by
  intro n
  induction n with
  | zero =>
    intro reads h
    have : reads = [] := List.eq_nil_of_length_eq_zero (Nat.le_zero.mp h)
    subst this
    cases t <;> simp [readLoop, joinReads, splitEvents, processLines]
  | succ n ih =>
    intro reads h
    match reads with
    | [] =>
      cases t <;> simp [readLoop, joinReads, splitEvents, processLines]
    | [r] =>
      have : joinReads [r] = r := by simp [joinReads]
      rw [this]
    | r1 :: r2 :: rs =>
      rw [readLoop_merge]
      have hlen : ((r1 ++ r2) :: rs).length ≤ n := by
        simp only [List.length_cons] at h ⊢
        omega
      rw [ih ((r1 ++ r2) :: rs) hlen]
      have : joinReads ((r1 ++ r2) :: rs) = joinReads (r1 :: r2 :: rs) := by
        simp [joinReads]
      rw [this]

/-- `done` / `error` callbacks are terminal; `chunk` / `stats` are not. -/
def CBEvent.isTerm : CBEvent → Bool
  | CBEvent.done => true
  | CBEvent.error _ => true
  | _ => false

theorem dataCallbacks_no_term (d : SSEData) :
    ∀ x ∈ dataCallbacks d, x.isTerm = false := by
  intro x hx
  unfold dataCallbacks at hx
  rcases List.mem_append.mp hx with h | h
  · cases hs : d.statistics with
    | none => rw [hs] at h; cases h
    | some n => rw [hs] at h; simp at h; rw [h]; rfl
  · by_cases hc : truthyStr d.content
    · simp only [hc, ite_true] at h
      simp at h; rw [h]; rfl
    · simp only [hc, Bool.false_eq_true, ite_false] at h
      cases h

/-- `processLines` either runs to completion firing only non-terminal
callbacks, or stops early with exactly one terminal callback last. -/
theorem processLines_shape (parse : List Char → Option SSEData)
    (ls : List (List Char)) :
    ((processLines parse ls).2 = false ∧
       ∀ x ∈ (processLines parse ls).1, x.isTerm = false) ∨
    ((processLines parse ls).2 = true ∧
       ∃ p e, (processLines parse ls).1 = p ++ [e] ∧
         (∀ x ∈ p, x.isTerm = false) ∧ e.isTerm = true) := by
  induction ls with
  | nil => left; exact ⟨rfl, by intro x hx; cases hx⟩
  | cons l ls ih =>
    by_cases hpre : dataPre.isPrefixOf l
    · rw [processLines, if_pos hpre]
      cases hparse : parse (l.drop 6) with
      | none => exact ih
      | some d =>
        by_cases herr : truthyStr d.error
        · right
          refine ⟨by simp [herr], [], CBEvent.error (d.error.getD []), by simp [herr], ?_, rfl⟩
          intro x hx; cases hx
        · by_cases hdone : d.done
          · right
            refine ⟨by simp [herr, hdone], [], CBEvent.done, by simp [herr, hdone], ?_, rfl⟩
            intro x hx; cases hx
          · simp only [herr, hdone, Bool.false_eq_true, if_neg, ite_false]
            rcases ih with ⟨hstop, hall⟩ | ⟨hstop, p, e, hl, hp, he⟩
            · left
              refine ⟨hstop, ?_⟩
              intro x hx
              rcases List.mem_append.mp hx with h | h
              · exact dataCallbacks_no_term d x h
              · exact hall x h
            · right
              refine ⟨hstop, dataCallbacks d ++ p, e, ?_, ?_, he⟩
              · rw [hl, List.append_assoc]
              · intro x hx
                rcases List.mem_append.mp hx with h | h
                · exact dataCallbacks_no_term d x h
                · exact hp x h
    · rw [processLines, if_neg hpre]
      exact ih

/-- Every run of the read loop fires a sequence of non-terminal
callbacks followed by exactly one terminal callback. -/
theorem readLoop_shape (parse : List Char → Option SSEData)
    (reads : List (List Char)) :
    ∀ (buf : List Char) (t : StreamEnd),
      ∃ p e, readLoop parse buf reads t = p ++ [e] ∧
        (∀ x ∈ p, x.isTerm = false) ∧ e.isTerm = true := by
  induction reads with
  | nil =>
    intro buf t
    cases t with
    | ended =>
      exact ⟨[], CBEvent.done, rfl, fun x hx => absurd hx (List.not_mem_nil x), rfl⟩
    | failed e =>
      exact ⟨[], CBEvent.error e, rfl, fun x hx => absurd hx (List.not_mem_nil x), rfl⟩
  | cons r rs ih =>
    intro buf t
    show ∃ p e,
      (let sp := splitEvents (buf ++ r)
       let pr := processLines parse sp.1
       if pr.2 then pr.1 else pr.1 ++ readLoop parse sp.2 rs t) = p ++ [e] ∧ _ ∧ _
    rcases processLines_shape parse (splitEvents (buf ++ r)).1 with
      ⟨hstop, hall⟩ | ⟨hstop, p, e, hl, hp, he⟩
    · rcases ih (splitEvents (buf ++ r)).2 t with ⟨p2, e2, hl2, hp2, he2⟩
      refine ⟨(processLines parse (splitEvents (buf ++ r)).1).1 ++ p2, e2, ?_, ?_, he2⟩
      · simp only [hstop, Bool.false_eq_true, ite_false, hl2, List.append_assoc]
      · intro x hx
        rcases List.mem_append.mp hx with h | h
        · exact hall x h
        · exact hp2 x h
    · exact ⟨p, e, by simp only [hstop, ite_true, hl], hp, he⟩

/-- The reactive state the LLMGenerateTab `handleExecute` streaming
branch maintains: the accumulated chunk text `pendingText`, the count
`displayedLength` of characters already shown, the rendered
`streamingContent`, the `isStreaming` flag, the
`executionResult.generated_document` field (`none` models
`executionResult.value = null`), and the failure toast shown on error. -/
structure GenState where
  pendingText : List Char
  displayedLength : Nat
  streamingContent : List Char
  isStreaming : Bool
  generatedDocument : Option (List Char)
  failToast : Option (List Char)
deriving DecidableEq

/-- Initial state of the streaming branch: `streamingContent.value = ''`,
`executionResult.value = { generated_document: '', ... }`,
`pendingText = ''`, `displayedLength = 0`, `isStreaming.value = true`. -/
def genInit : GenState :=
  { pendingText := []
    displayedLength := 0
    streamingContent := []
    isStreaming := true
    generatedDocument := some []
    failToast := none }

/-- An event the handler reacts to: a stream callback, or one firing of
the `typewriterEffect` timer. -/
inductive HEvent where
  | cb (e : CBEvent)
  | tick
deriving DecidableEq

/-- The fallback `'未知错误'` used when `error.message` is falsy. -/
def unknownErrText : List Char := "未知错误".toList

/-- The failure toast text `'LLM生成失败: ' + (error.message || '未知错误')`. -/
def llmFailText (e : List Char) : List Char :=
  "LLM生成失败: ".toList ++ (if e.isEmpty then unknownErrText else e)

/-- One transition of the handler.

`tick` is the body of `typewriterEffect`: if not everything is shown,
display `min 3` further characters of `pendingText`; otherwise do
nothing (the timer merely re-arms).

`cb (chunk s)` is the `onChunk` branch for string chunks:
`pendingText += chunk`.  `cb (stats n)` only merges statistics into
`executionResult.llm_statistics` and touches none of these fields.

`cb done` is the completion callback: stop streaming, clear the timer,
show all of `pendingText`, and copy it into
`executionResult.generated_document`.

`cb (error e)` is the error callback: stop streaming, clear the timer,
toast `LLM生成失败: ...`, and set `executionResult.value = null`. -/
def genStep (s : GenState) : HEvent → GenState
  | HEvent.tick =>
    if s.displayedLength < s.pendingText.length then
      let chunkSize := min 3 (s.pendingText.length - s.displayedLength)
      { s with
          streamingContent := s.pendingText.take (s.displayedLength + chunkSize)
          displayedLength := s.displayedLength + chunkSize }
    else s
  | HEvent.cb (CBEvent.chunk c) => { s with pendingText := s.pendingText ++ c }
  | HEvent.cb (CBEvent.stats _) => s
  | HEvent.cb CBEvent.done =>
    { s with
        isStreaming := false
        streamingContent := s.pendingText
        displayedLength := s.pendingText.length
        generatedDocument := some s.pendingText }
  | HEvent.cb (CBEvent.error e) =>
    { s with
        isStreaming := false
        failToast := some (llmFailText e)
        generatedDocument := none }

/-- Run the handler over a sequence of events. -/
def genRun (tr : List HEvent) : GenState := tr.foldl genStep genInit

/-- `Interleaves cbs tr`: `tr` is the callback sequence `cbs` with
arbitrarily many typewriter ticks interspersed (the browser event loop
serialises both onto one thread, in callback arrival order). -/
inductive Interleaves : List CBEvent → List HEvent → Prop
  | nil : Interleaves [] []
  | tick {es tr} : Interleaves es tr → Interleaves es (HEvent.tick :: tr)
  | cb {e es tr} : Interleaves es tr → Interleaves (e :: es) (HEvent.cb e :: tr)

/-- Concatenation, in arrival order, of the string chunks among a
callback sequence. -/
def chunkConcat : List CBEvent → List Char
  | [] => []
  | CBEvent.chunk s :: es => s ++ chunkConcat es
  | _ :: es => chunkConcat es

/-- The state invariant of the typewriter: what is rendered is exactly
the first `displayedLength` characters of the accumulated text, and no
more than the accumulated text. -/
def GenInv (s : GenState) : Prop :=
  s.streamingContent = s.pendingText.take s.displayedLength ∧
  s.displayedLength ≤ s.pendingText.length

theorem genStep_inv (s : GenState) (e : HEvent) (h : GenInv s) :
    GenInv (genStep s e) := by
  obtain ⟨h1, h2⟩ := h
  cases e with
  | tick =>
    show GenInv (if s.displayedLength < s.pendingText.length then _ else s)
    by_cases hlt : s.displayedLength < s.pendingText.length
    · rw [if_pos hlt]
      constructor
      · rfl
      · simp only []
        omega
    · rw [if_neg hlt]; exact ⟨h1, h2⟩
  | cb e =>
    cases e with
    | chunk c =>
      constructor
      · show s.streamingContent = (s.pendingText ++ c).take s.displayedLength
        rw [List.take_append_of_le_length h2]
        exact h1
      · show s.displayedLength ≤ (s.pendingText ++ c).length
        rw [List.length_append]
        omega
    | stats n => exact ⟨h1, h2⟩
    | done =>
      refine ⟨?_, le_refl _⟩
      show s.pendingText = s.pendingText.take s.pendingText.length
      rw [List.take_length]
    | error e => exact ⟨h1, h2⟩

theorem genRun_inv (tr : List HEvent) : GenInv (genRun tr) := by
  suffices h : ∀ (s : GenState), GenInv s → GenInv (tr.foldl genStep s) by
    exact h genInit ⟨rfl, by simp [genInit]⟩
  induction tr with
  | nil => intro s hs; exact hs
  | cons e es ih => intro s hs; exact ih _ (genStep_inv s e hs)

theorem genStep_tick_def (s : GenState) :
    genStep s HEvent.tick =
      (if s.displayedLength < s.pendingText.length then
        { s with
            streamingContent :=
              s.pendingText.take
                (s.displayedLength + min 3 (s.pendingText.length - s.displayedLength))
            displayedLength :=
              s.displayedLength + min 3 (s.pendingText.length - s.displayedLength) }
      else s) := rfl

/-- A typewriter tick never touches the accumulated text, the streaming
flag, the generated document, or the failure toast. -/
theorem genStep_tick_fields (s : GenState) :
    (genStep s HEvent.tick).pendingText = s.pendingText ∧
    (genStep s HEvent.tick).isStreaming = s.isStreaming ∧
    (genStep s HEvent.tick).generatedDocument = s.generatedDocument ∧
    (genStep s HEvent.tick).failToast = s.failToast := by
  rw [genStep_tick_def]
  by_cases hlt : s.displayedLength < s.pendingText.length
  · rw [if_pos hlt]; exact ⟨rfl, rfl, rfl, rfl⟩
  · rw [if_neg hlt]; exact ⟨rfl, rfl, rfl, rfl⟩

theorem chunkConcat_append (a b : List CBEvent) :
    chunkConcat (a ++ b) = chunkConcat a ++ chunkConcat b := by
  induction a with
  | nil => rfl
  | cons e es ih =>
    cases e <;> simp [chunkConcat, ih]

/-- Whatever the tick interleaving, `pendingText` accumulates exactly
the string chunks, in arrival order. -/
theorem genFold_pending :
    ∀ {es : List CBEvent} {tr : List HEvent}, Interleaves es tr →
      ∀ s : GenState,
        (tr.foldl genStep s).pendingText = s.pendingText ++ chunkConcat es := by
  intro es tr h
  induction h with
  | nil => intro s; simp [chunkConcat]
  | tick _ ih =>
    intro s
    show ((_ : List HEvent).foldl genStep (genStep s HEvent.tick)).pendingText = _
    rw [ih (genStep s HEvent.tick), (genStep_tick_fields s).1]
  | cb _ ih =>
    rename_i e es' tr' _
    intro s
    show ((_ : List HEvent).foldl genStep (genStep s (HEvent.cb e))).pendingText = _
    rw [ih (genStep s (HEvent.cb e))]
    cases e with
    | chunk c => show s.pendingText ++ c ++ chunkConcat es' = _; simp [chunkConcat]
    | stats n => rfl
    | done => rfl
    | error e => rfl

/-- Folding a tick-only tail preserves every field the claims inspect. -/
theorem genFold_ticks_fields :
    ∀ {es : List CBEvent} {tr : List HEvent}, Interleaves es tr → es = [] →
      ∀ s : GenState,
        (tr.foldl genStep s).isStreaming = s.isStreaming ∧
        (tr.foldl genStep s).failToast = s.failToast ∧
        (tr.foldl genStep s).generatedDocument = s.generatedDocument ∧
        (tr.foldl genStep s).pendingText = s.pendingText := by
  intro es tr h
  induction h with
  | nil => intro _ s; exact ⟨rfl, rfl, rfl, rfl⟩
  | tick _ ih =>
    intro he s
    obtain ⟨i1, i2, i3, i4⟩ := ih he (genStep s HEvent.tick)
    obtain ⟨t1, t2, t3, t4⟩ := genStep_tick_fields s
    exact ⟨i1.trans t2, i2.trans t4, i3.trans t3, i4.trans t1⟩
  | cb _ ih =>
    intro he
    exact absurd he (List.cons_ne_nil _ _)

/-- A tick-only tail starting from a fully displayed state is a no-op. -/
theorem genFold_ticks_id :
    ∀ {es : List CBEvent} {tr : List HEvent}, Interleaves es tr → es = [] →
      ∀ s : GenState, s.pendingText.length ≤ s.displayedLength →
        tr.foldl genStep s = s := by
  intro es tr h
  induction h with
  | nil => intro _ s _; rfl
  | tick _ ih =>
    intro he s hs
    have hstep : genStep s HEvent.tick = s := by
      rw [genStep_tick_def, if_neg (by omega)]
    show (_ : List HEvent).foldl genStep (genStep s HEvent.tick) = s
    rw [hstep]
    exact ih he s hs
  | cb _ ih =>
    intro he
    exact absurd he (List.cons_ne_nil _ _)

/-- After a session whose last callback is `onDone` (preceded only by
chunk/statistics callbacks), the handler shows the whole accumulated
text and copies it into the generated document, however the typewriter
ticks were interleaved. -/
theorem genFold_done_terminal :
    ∀ {es : List CBEvent} {tr : List HEvent}, Interleaves es tr →
      ∀ es' : List CBEvent, es = es' ++ [CBEvent.done] →
        (∀ x ∈ es', x.isTerm = false) →
        ∀ s : GenState,
          (tr.foldl genStep s).streamingContent =
            s.pendingText ++ chunkConcat es' ∧
          (tr.foldl genStep s).generatedDocument =
            some (s.pendingText ++ chunkConcat es') ∧
          (tr.foldl genStep s).isStreaming = false := by
  intro es tr h
  induction h with
  | nil =>
    intro es' he
    exact absurd he.symm (by simp)
  | tick _ ih =>
    intro es' he hall s
    rw [List.foldl_cons]
    obtain ⟨c1, c2, c3⟩ := ih es' he hall (genStep s HEvent.tick)
    rw [(genStep_tick_fields s).1] at c1 c2
    exact ⟨c1, c2, c3⟩
  | cb _ ih =>
    rename_i e es₀ tr' hh
    intro es' he hall s
    rw [List.foldl_cons]
    cases es' with
    | nil =>
      rw [List.nil_append] at he
      injection he with he1 he2
      subst he1
      subst he2
      have hfin : tr'.foldl genStep (genStep s (HEvent.cb CBEvent.done)) =
          genStep s (HEvent.cb CBEvent.done) :=
        genFold_ticks_id hh rfl _ (le_refl _)
      rw [hfin]
      exact ⟨by simp [genStep, chunkConcat], by simp [genStep, chunkConcat], rfl⟩
    | cons y ys =>
      rw [List.cons_append] at he
      injection he with he1 he2
      subst he1
      subst he2
      have hy : e.isTerm = false := hall e (List.mem_cons_self e ys)
      have hys : ∀ x ∈ ys, x.isTerm = false :=
        fun x hx => hall x (List.mem_cons_of_mem e hx)
      obtain ⟨c1, c2, c3⟩ := ih ys rfl hys (genStep s (HEvent.cb e))
      cases e with
      | chunk c =>
        refine ⟨?_, ?_, c3⟩
        · rw [c1]
          show s.pendingText ++ c ++ chunkConcat ys = _
          simp [chunkConcat, List.append_assoc]
        · rw [c2]
          show some (s.pendingText ++ c ++ chunkConcat ys) = _
          simp [chunkConcat, List.append_assoc]
      | stats n =>
        refine ⟨?_, ?_, c3⟩
        · rw [c1]; rfl
        · rw [c2]; rfl
      | done => exact absurd hy (by simp [CBEvent.isTerm])
      | error m => exact absurd hy (by simp [CBEvent.isTerm])

/-- After a session whose last callback is `onError`, the handler has
stopped streaming, nulled the execution result, and shown the failure
toast, however the ticks were interleaved. -/
theorem genFold_error_terminal :
    ∀ {es : List CBEvent} {tr : List HEvent}, Interleaves es tr →
      ∀ (es' : List CBEvent) (m : List Char),
        es = es' ++ [CBEvent.error m] →
        (∀ x ∈ es', x.isTerm = false) →
        ∀ s : GenState,
          (tr.foldl genStep s).isStreaming = false ∧
          (tr.foldl genStep s).failToast = some (llmFailText m) ∧
          (tr.foldl genStep s).generatedDocument = none := by
  intro es tr h
  induction h with
  | nil =>
    intro es' m he
    exact absurd he.symm (by simp)
  | tick _ ih =>
    intro es' m he hall s
    rw [List.foldl_cons]
    exact ih es' m he hall (genStep s HEvent.tick)
  | cb _ ih =>
    rename_i e es₀ tr' hh
    intro es' m he hall s
    rw [List.foldl_cons]
    cases es' with
    | nil =>
      rw [List.nil_append] at he
      injection he with he1 he2
      subst he1
      subst he2
      obtain ⟨f1, f2, f3, _⟩ :=
        genFold_ticks_fields hh rfl (genStep s (HEvent.cb (CBEvent.error m)))
      exact ⟨f1, f2, f3⟩
    | cons y ys =>
      rw [List.cons_append] at he
      injection he with he1 he2
      subst he1
      subst he2
      have hy : e.isTerm = false := hall e (List.mem_cons_self e ys)
      have hys : ∀ x ∈ ys, x.isTerm = false :=
        fun x hx => hall x (List.mem_cons_of_mem e hx)
      exact ih ys m rfl hys (genStep s (HEvent.cb e))

/-- A concrete JSON parser for witnesses: payload `a` is a content
chunk `hi`, payload `d` is a done marker, payload `x` is an error. -/
def demoParse : List Char → Option SSEData
  | ['a'] => some ⟨none, false, none, some ['h', 'i']⟩
  | ['d'] => some ⟨none, true, none, none⟩
  | ['x'] => some ⟨some ['b', 'o', 'o', 'm'], false, none, none⟩
  | _ => none

/-- Two reads that split the byte stream
`data: a\n\ndata: d\n\n` in the middle of the second `data:` line. -/
def demoReads : List (List Char) :=
  [['d', 'a', 't', 'a', ':', ' ', 'a', '\n', '\n', 'd', 'a'],
   ['t', 'a', ':', ' ', 'd', '\n', '\n']]

/-- The same byte stream delivered as a single read. -/
def demoReadsOne : List (List Char) :=
  [['d', 'a', 't', 'a', ':', ' ', 'a', '\n', '\n',
    'd', 'a', 't', 'a', ':', ' ', 'd', '\n', '\n']]

/-- A handler trace for `demoReads`: the chunk callback, one typewriter
tick, then the done callback. -/
def demoTrace : List HEvent :=
  [HEvent.cb (CBEvent.chunk ['h', 'i']), HEvent.tick, HEvent.cb CBEvent.done]

theorem demoSession_eq :
    step7Session true [] demoParse demoReads StreamEnd.ended =
      [CBEvent.chunk ['h', 'i'], CBEvent.done] := by decide

theorem demoInterleaves :
    Interleaves (step7Session true [] demoParse demoReads StreamEnd.ended)
      demoTrace := by
  rw [demoSession_eq]
  exact Interleaves.cb (Interleaves.tick (Interleaves.cb Interleaves.nil))

/-- C1: for every LLM streaming session that completes (its callback
sequence ends with `onDone`), the rendered `streamingContent` — and the
`generated_document` field of the execution result — equals the
concatenation, in arrival order, of all string content chunks delivered
by the stream, regardless of how the typewriter ticks interleave with
the callbacks. -/
theorem c1_stream_concat_rendered (detail : List Char)
    (parse : List Char → Option SSEData) (reads : List (List Char))
    (t : StreamEnd) (tr : List HEvent)
    (hinter : Interleaves (step7Session true detail parse reads t) tr)
    (hdone : (step7Session true detail parse reads t).getLast? =
      some CBEvent.done) :
    (genRun tr).streamingContent =
      chunkConcat (step7Session true detail parse reads t) ∧
    (genRun tr).generatedDocument =
      some (chunkConcat (step7Session true detail parse reads t)) ∧
    (genRun tr).isStreaming = false := by
  obtain ⟨p, e, hshape, hp, _⟩ := readLoop_shape parse reads [] t
  have hsess : step7Session true detail parse reads t = p ++ [e] := hshape
  have hlast : (p ++ [e]).getLast? = some e := by simp
  have he : e = CBEvent.done := by
    rw [hsess, hlast] at hdone
    exact Option.some.inj hdone
  subst he
  rw [hsess] at hinter ⊢
  have hcc : chunkConcat (p ++ [CBEvent.done]) = chunkConcat p := by
    rw [chunkConcat_append]
    simp [chunkConcat]
  obtain ⟨c1, c2, c3⟩ := genFold_done_terminal hinter p rfl hp genInit
  rw [hcc]
  exact ⟨c1, c2, c3⟩

/-- Witness for C1 at the `demoReads` session and `demoTrace`
interleaving. -/
theorem c1_stream_concat_rendered_witness :
    (genRun demoTrace).streamingContent =
      chunkConcat (step7Session true [] demoParse demoReads StreamEnd.ended) :=
  (c1_stream_concat_rendered [] demoParse demoReads StreamEnd.ended demoTrace
    demoInterleaves (by decide)).1

/-- C10: a session's callback sequence is some chunk/statistics
callbacks followed by exactly one terminal callback (`onDone` or
`onError`): after a parsed event with a truthy `done` or `error` field
(or stream end / failure), no further `onChunk`, `onDone` or `onError`
fires — including for events remaining in the same buffered read. -/
theorem c10_terminal_callback_last (ok : Bool) (detail : List Char)
    (parse : List Char → Option SSEData) (reads : List (List Char))
    (t : StreamEnd) :
    ∃ p e, step7Session ok detail parse reads t = p ++ [e] ∧
      (∀ x ∈ p, x.isTerm = false) ∧
      (e = CBEvent.done ∨ ∃ m, e = CBEvent.error m) := by
  cases ok with
  | false =>
    exact ⟨[], CBEvent.error detail, rfl,
      fun x hx => absurd hx (List.not_mem_nil x), Or.inr ⟨detail, rfl⟩⟩
  | true =>
    obtain ⟨p, e, hshape, hp, he⟩ := readLoop_shape parse reads [] t
    refine ⟨p, e, hshape, hp, ?_⟩
    cases e with
    | chunk s => exact absurd he (by simp [CBEvent.isTerm])
    | stats n => exact absurd he (by simp [CBEvent.isTerm])
    | done => exact Or.inl rfl
    | error m => exact Or.inr ⟨m, rfl⟩

/-- C7: the SSE parsing of `step7LLMGenerateStream` is invariant under
fragmentation of the byte stream: two sessions over the same delivered
byte sequence (and the same terminator) fire identical callback
sequences, because the trailing fragment after splitting on `"\n\n"` is
retained and prepended to the next read. -/
theorem c7_fragmentation_invariant (ok : Bool) (detail : List Char)
    (parse : List Char → Option SSEData) (t : StreamEnd)
    (reads1 reads2 : List (List Char))
    (h : joinReads reads1 = joinReads reads2) :
    step7Session ok detail parse reads1 t =
      step7Session ok detail parse reads2 t := by
  cases ok with
  | false => rfl
  | true =>
    show readLoop parse [] reads1 t = readLoop parse [] reads2 t
    rw [readLoop_join parse t reads1.length reads1 (le_refl _),
        readLoop_join parse t reads2.length reads2 (le_refl _), h]

/-- Witness for C7: the two-read fragmentation `demoReads` and the
single-read delivery `demoReadsOne` of the same bytes fire the same
callbacks. -/
theorem c7_fragmentation_invariant_witness :
    step7Session true [] demoParse demoReads StreamEnd.ended =
      step7Session true [] demoParse demoReadsOne StreamEnd.ended :=
  c7_fragmentation_invariant true [] demoParse StreamEnd.ended
    demoReads demoReadsOne (by decide)

/-- C4: every failure of streamed LLM generation aborts the stream and
marks the in-progress message as failed.  (i) A non-OK HTTP response
fires `onError` with the extracted detail and never reads the stream;
(ii) whenever `onError` fires (error event in the data, or a rejected
read), it is the last callback of the session — no further `onChunk`
follows; (iii) the handler then stops streaming, shows the
`LLM生成失败` failure text, and nulls the execution result. -/
theorem c4_stream_failure :
    (∀ (detail : List Char) (parse : List Char → Option SSEData)
       (reads : List (List Char)) (t : StreamEnd),
       step7Session false detail parse reads t = [CBEvent.error detail]) ∧
    (∀ (ok : Bool) (detail : List Char) (parse : List Char → Option SSEData)
       (reads : List (List Char)) (t : StreamEnd) (m : List Char),
       CBEvent.error m ∈ step7Session ok detail parse reads t →
         ∃ p, step7Session ok detail parse reads t = p ++ [CBEvent.error m] ∧
           ∀ x ∈ p, x.isTerm = false) ∧
    (∀ (es : List CBEvent) (m : List Char) (tr : List HEvent),
       Interleaves (es ++ [CBEvent.error m]) tr →
       (∀ x ∈ es, x.isTerm = false) →
       (genRun tr).isStreaming = false ∧
       (genRun tr).failToast = some (llmFailText m) ∧
       (genRun tr).generatedDocument = none) := by
  refine ⟨fun _ _ _ _ => rfl, ?_, ?_⟩
  · intro ok detail parse reads t m hmem
    have hsh : ∃ p e, step7Session ok detail parse reads t = p ++ [e] ∧
        (∀ x ∈ p, x.isTerm = false) ∧ e.isTerm = true := by
      cases ok with
      | false =>
        exact ⟨[], CBEvent.error detail, rfl,
          fun x hx => absurd hx (List.not_mem_nil x), rfl⟩
      | true => exact readLoop_shape parse reads [] t
    obtain ⟨p, e, hshape, hp, he⟩ := hsh
    rw [hshape] at hmem ⊢
    rcases List.mem_append.mp hmem with h | h
    · have := hp _ h
      simp [CBEvent.isTerm] at this
    · have : CBEvent.error m = e := List.mem_singleton.mp h
      subst this
      exact ⟨p, rfl, hp⟩
  · intro es m tr hinter hall
    exact genFold_error_terminal hinter es m rfl hall genInit

/-- Witness for C4: a session over a stream whose payload carries an
error field, with one trailing tick in the handler trace. -/
theorem c4_stream_failure_witness :
    (genRun [HEvent.cb (CBEvent.error ['b', 'o', 'o', 'm']), HEvent.tick]).failToast =
      some (llmFailText ['b', 'o', 'o', 'm']) :=
  ((c4_stream_failure.2.2) [] ['b', 'o', 'o', 'm']
    [HEvent.cb (CBEvent.error ['b', 'o', 'o', 'm']), HEvent.tick]
    (Interleaves.cb (Interleaves.tick Interleaves.nil))
    (fun x hx => absurd hx (List.not_mem_nil x))).2.1

/-- C9: throughout a streaming session the displayed text is a prefix
of the accumulated chunk text: (i) after any event sequence, the
rendered `streamingContent` is exactly the first `displayedLength`
characters of `pendingText` — in particular a prefix of it; (ii) a
single `typewriterEffect` tick extends the rendered text by at most 3
characters and preserves the prefix property; (iii) the completion
callback sets `streamingContent` to the whole of `pendingText`. -/
theorem c9_typewriter_prefix_invariant :
    (∀ tr : List HEvent,
       (genRun tr).streamingContent =
         (genRun tr).pendingText.take (genRun tr).displayedLength ∧
       ∃ rest, (genRun tr).pendingText = (genRun tr).streamingContent ++ rest) ∧
    (∀ s : GenState, GenInv s →
       (genStep s HEvent.tick).streamingContent.length ≤
         s.streamingContent.length + 3 ∧
       (genStep s HEvent.tick).streamingContent =
         (genStep s HEvent.tick).pendingText.take
           (genStep s HEvent.tick).displayedLength) ∧
    (∀ s : GenState,
       (genStep s (HEvent.cb CBEvent.done)).streamingContent =
         (genStep s (HEvent.cb CBEvent.done)).pendingText) := by
  refine ⟨?_, ?_, fun s => rfl⟩
  · intro tr
    obtain ⟨h1, h2⟩ := genRun_inv tr
    refine ⟨h1, (genRun tr).pendingText.drop (genRun tr).displayedLength, ?_⟩
    rw [h1, List.take_append_drop]
  · intro s hs
    obtain ⟨h1, h2⟩ := hs
    have hinv := genStep_inv s HEvent.tick ⟨h1, h2⟩
    refine ⟨?_, hinv.1⟩
    rw [genStep_tick_def]
    by_cases hlt : s.displayedLength < s.pendingText.length
    · rw [if_pos hlt]
      have hlen : (s.pendingText.take
          (s.displayedLength + min 3 (s.pendingText.length - s.displayedLength))).length =
          s.displayedLength + min 3 (s.pendingText.length - s.displayedLength) := by
        rw [List.length_take]
        omega
      have holdlen : s.streamingContent.length = s.displayedLength := by
        rw [h1, List.length_take]
        omega
      rw [hlen, holdlen]
      omega
    · rw [if_neg hlt]
      omega

/-- Witness for C9 at the initial handler state. -/
theorem c9_typewriter_prefix_invariant_witness :
    (genStep genInit HEvent.tick).streamingContent.length ≤
      genInit.streamingContent.length + 3 :=
  (c9_typewriter_prefix_invariant.2.1 genInit ⟨rfl, Nat.le_refl 0⟩).1

/-- JS `a || b` on an optional string: the fallback is used when the
field is absent or empty (falsy). -/
def jsOrStr (a : Option (List Char)) (b : List Char) : List Char :=
  match a with
  | some s => if s.isEmpty then b else s
  | none => b

/-- The template `` `第${n}章` `` with a decimal chapter number. -/
def chapterName (idx : Nat) : List Char :=
  '第' :: (Nat.toDigits 10 (idx + 1) ++ ['章'])

/-- `chunk.metadata` as consumed by the conversion. -/
structure ChunkMeta where
  version : Option (List Char)
deriving DecidableEq

/-- One element of `stage1.chunk_results` as consumed by
`convertV4ResultsToLLMFormat`. -/
structure ChunkResult where
  section_name : Option (List Char)
  chunk_index : Option Nat
  content : Option (List Char)
  score : ℚ
  doc_id : Option (List Char)
  group_id : Option (List Char)
  metadata : Option ChunkMeta
deriving DecidableEq

/-- `entity.properties` as consumed by the conversion and by
`formatEntityContent`. -/
structure EntityProps where
  doc_id : Option (List Char)
  group_id : Option (List Char)
  version : Option (List Char)
  description : Option (List Char)
  definition : Option (List Char)
  specification : Option (List Char)
  status : Option (List Char)
  priority : Option (List Char)
  content : Option (List Char)
deriving DecidableEq

/-- One element of `entity.related_chunks`. -/
structure RelatedChunk where
  section_name : Option (List Char)
  chunk_index : Option Nat
deriving DecidableEq

/-- One element of `entity.relationships`. -/
structure EntityRel where
  type : List Char
  target : List Char
deriving DecidableEq

/-- A stage-2 entity (Graphiti or Cognee) as consumed by the conversion. -/
structure Entity where
  name : Option (List Char)
  type : Option (List Char)
  score : ℚ
  uuid : Option (List Char)
  id : Option (List Char)
  properties : Option EntityProps
  related_chunks : Option (List RelatedChunk)
  relationships : Option (List EntityRel)
deriving DecidableEq

structure Stage1 where
  chunk_results : Option (List ChunkResult)
deriving DecidableEq

structure GraphChannel where
  entities : Option (List Entity)
deriving DecidableEq

structure Stage2 where
  graphiti : Option GraphChannel
  cognee : Option GraphChannel
deriving DecidableEq

/-- The v4.0 smart-retrieval response, restricted to the parts the
conversion reads. -/
structure RetrievalResult where
  stage1 : Option Stage1
  stage2 : Option Stage2
deriving DecidableEq

/-- One item of the list handed to the LLM.  Keys a variant does not
set in the source object literal are `none`. -/
structure LLMItem where
  source : List Char
  source_channel : List Char
  name : List Char
  content : List Char
  score : ℚ
  doc_id : List Char
  version : List Char
  group_id : Option (List Char)
  chunk_index : Option Nat
  uuid : Option (List Char)
  id : Option (List Char)
  type : Option (List Char)
deriving DecidableEq

/-- `Array.prototype.join(sep)`. -/
def joinSep (sep : List Char) : List (List Char) → List Char
  | [] => []
  | [x] => x
  | x :: xs => x ++ sep ++ joinSep sep xs

/-- `formatEntityContent`: structured text from name, type, key
properties, related chunk sections, and the first three relationships. -/
def formatEntityContent (entity : Entity) : List Char :=
  let parts₁ :=
    (if truthyStr entity.name
     then ["实体名称: ".toList ++ entity.name.getD []] else []) ++
    (if truthyStr entity.type
     then ["类型: ".toList ++ entity.type.getD []] else [])
  let parts₂ :=
    match entity.properties with
    | none => []
    | some props =>
      (if truthyStr props.description
       then ["描述: ".toList ++ props.description.getD []] else []) ++
      (if truthyStr props.definition
       then ["定义: ".toList ++ props.definition.getD []] else []) ++
      (if truthyStr props.specification
       then ["规格: ".toList ++ props.specification.getD []] else []) ++
      (if truthyStr props.status
       then ["状态: ".toList ++ props.status.getD []] else []) ++
      (if truthyStr props.priority
       then ["优先级: ".toList ++ props.priority.getD []] else []) ++
      (if truthyStr props.content
       then ["内容: ".toList ++ (props.content.getD []).take 200 ++
             (if 200 < (props.content.getD []).length then "...".toList else [])]
       else [])
  let parts₃ :=
    match entity.related_chunks with
    | none => []
    | some rcs =>
      if rcs.length = 0 then []
      else
        let sectionNames :=
          (rcs.map (fun c => jsOrStr c.section_name
            (chapterName (c.chunk_index.getD 0)))).filter (fun s => !s.isEmpty)
        if sectionNames.length = 0 then []
        else ["关联章节: ".toList ++ joinSep ", ".toList sectionNames]
  let parts₄ :=
    match entity.relationships with
    | none => []
    | some rels =>
      if rels.length = 0 then []
      else
        let relNames :=
          ((rels.take 3).map
            (fun rel => rel.type ++ ": ".toList ++ rel.target)).filter
            (fun s => !s.isEmpty)
        if relNames.length = 0 then []
        else ["关系: ".toList ++ joinSep "; ".toList relNames]
  let parts := parts₁ ++ parts₂ ++ parts₃ ++ parts₄
  if 0 < parts.length then joinSep ['\n'] parts
  else jsOrStr entity.name "实体信息".toList

/-- Conversion of a stage-1 chunk result (source `DocumentChunk`). -/
def convChunk (chunk : ChunkResult) : LLMItem :=
  { source := "DocumentChunk".toList
    source_channel := "DocumentChunk".toList
    name := jsOrStr chunk.section_name (chapterName (chunk.chunk_index.getD 0))
    content := (chunk.content.getD [])
    score := chunk.score / 100
    doc_id := jsOrStr chunk.doc_id (jsOrStr chunk.group_id "unknown".toList)
    version := jsOrStr (chunk.metadata.bind ChunkMeta.version) "unknown".toList
    group_id := chunk.group_id
    chunk_index := chunk.chunk_index
    uuid := none
    id := none
    type := none }

/-- Conversion of a stage-2 Graphiti entity. -/
def convGraphitiEntity (entity : Entity) : LLMItem :=
  { source := "Graphiti".toList
    source_channel := "Entity".toList
    name := jsOrStr entity.name "未命名实体".toList
    content := formatEntityContent entity
    score := entity.score / 100
    doc_id := jsOrStr (entity.properties.bind EntityProps.doc_id)
      (jsOrStr (entity.properties.bind EntityProps.group_id) "unknown".toList)
    version := jsOrStr (entity.properties.bind EntityProps.version) "unknown".toList
    group_id := entity.properties.bind EntityProps.group_id
    chunk_index := none
    uuid := entity.uuid
    id := none
    type := entity.type }

/-- Conversion of a stage-2 Cognee entity. -/
def convCogneeEntity (entity : Entity) : LLMItem :=
  { source := "Cognee".toList
    source_channel := "Entity".toList
    name := jsOrStr entity.name "未命名实体".toList
    content := formatEntityContent entity
    score := entity.score / 100
    doc_id := jsOrStr (entity.properties.bind EntityProps.doc_id)
      (jsOrStr (entity.properties.bind EntityProps.group_id) "unknown".toList)
    version := jsOrStr (entity.properties.bind EntityProps.version) "unknown".toList
    group_id := entity.properties.bind EntityProps.group_id
    chunk_index := none
    uuid := none
    id := entity.id
    type := entity.type }

/-- `retrievalResult.stage1?.chunk_results` with absent links yielding
an empty iteration. -/
def chunkResultsOf (r : RetrievalResult) : List ChunkResult :=
  match r.stage1 with
  | some s1 => s1.chunk_results.getD []
  | none => []

/-- `retrievalResult.stage2?.graphiti?.entities`. -/
def graphitiEntitiesOf (r : RetrievalResult) : List Entity :=
  match r.stage2 with
  | some s2 =>
    match s2.graphiti with
    | some g => g.entities.getD []
    | none => []
  | none => []

/-- `retrievalResult.stage2?.cognee?.entities`. -/
def cogneeEntitiesOf (r : RetrievalResult) : List Entity :=
  match r.stage2 with
  | some s2 =>
    match s2.cognee with
    | some g => g.entities.getD []
    | none => []
  | none => []

/-- Stable descending insertion by score (equal scores keep original
order, as the stable `Array.sort` with comparator `b.score - a.score`). -/
def insertDesc (x : LLMItem) : List LLMItem → List LLMItem
  | [] => [x]
  | y :: ys => if y.score < x.score then x :: y :: ys else y :: insertDesc x ys

/-- Stable descending sort by score. -/
def sortDesc : List LLMItem → List LLMItem
  | [] => []
  | x :: xs => insertDesc x (sortDesc xs)

/-- `convertV4ResultsToLLMFormat`: flatten the three channels, divide
each score by 100, sort descending by score, and keep the Top
`maxResults`. -/
def convertV4ResultsToLLMFormat (retrievalResult : RetrievalResult)
    (maxResults : Nat) : List LLMItem :=
  (sortDesc
    ((chunkResultsOf retrievalResult).map convChunk ++
     (graphitiEntitiesOf retrievalResult).map convGraphitiEntity ++
     (cogneeEntitiesOf retrievalResult).map convCogneeEntity)).take maxResults

theorem mem_insertDesc (a x : LLMItem) (l : List LLMItem) :
    a ∈ insertDesc x l ↔ a = x ∨ a ∈ l := by
  induction l with
  | nil => simp [insertDesc]
  | cons y ys ih =>
    by_cases h : y.score < x.score
    · simp [insertDesc, h]
    · simp [insertDesc, h, ih]
      tauto

theorem mem_sortDesc (a : LLMItem) (l : List LLMItem) :
    a ∈ sortDesc l ↔ a ∈ l := by
  induction l with
  | nil => simp [sortDesc]
  | cons x xs ih =>
    simp [sortDesc, mem_insertDesc, ih]

theorem insertDesc_sorted (x : LLMItem) (l : List LLMItem)
    (h : List.Pairwise (fun a b => b.score ≤ a.score) l) :
    List.Pairwise (fun a b => b.score ≤ a.score) (insertDesc x l) := by
  induction l with
  | nil => simp [insertDesc]
  | cons y ys ih =>
    obtain ⟨hy, hys⟩ := List.pairwise_cons.mp h
    by_cases hlt : y.score < x.score
    · rw [insertDesc, if_pos hlt]
      refine List.pairwise_cons.mpr ⟨?_, h⟩
      intro z hz
      rcases List.mem_cons.mp hz with hz | hz
      · rw [hz]; exact le_of_lt hlt
      · exact le_trans (hy z hz) (le_of_lt hlt)
    · rw [insertDesc, if_neg hlt]
      refine List.pairwise_cons.mpr ⟨?_, ih hys⟩
      intro z hz
      rcases (mem_insertDesc z x ys).mp hz with hz | hz
      · rw [hz]; exact le_of_not_lt hlt
      · exact hy z hz

theorem sortDesc_sorted (l : List LLMItem) :
    List.Pairwise (fun a b => b.score ≤ a.score) (sortDesc l) := by
  induction l with
  | nil => exact List.Pairwise.nil
  | cons x xs ih => exact insertDesc_sorted x (sortDesc xs) ih

/-- C8: for every retrieval result and bound, `convertV4ResultsToLLMFormat`
returns at most `maxResults` items, sorted in non-increasing score
order, each item converted from a `stage1.chunk_results` chunk, a
`stage2.graphiti.entities` entity, or a `stage2.cognee.entities`
entity, with its score equal to the source score divided by 100. -/
theorem c8_convert_v4_shape (retrievalResult : RetrievalResult)
    (maxResults : Nat) :
    (convertV4ResultsToLLMFormat retrievalResult maxResults).length ≤ maxResults ∧
    List.Pairwise (fun a b => b.score ≤ a.score)
      (convertV4ResultsToLLMFormat retrievalResult maxResults) ∧
    ∀ it ∈ convertV4ResultsToLLMFormat retrievalResult maxResults,
      (∃ c ∈ chunkResultsOf retrievalResult,
        it = convChunk c ∧ it.score = c.score / 100) ∨
      (∃ e ∈ graphitiEntitiesOf retrievalResult,
        it = convGraphitiEntity e ∧ it.score = e.score / 100) ∨
      (∃ e ∈ cogneeEntitiesOf retrievalResult,
        it = convCogneeEntity e ∧ it.score = e.score / 100) := by
  refine ⟨?_, ?_, ?_⟩
  · rw [convertV4ResultsToLLMFormat, List.length_take]
    exact min_le_left _ _
  · exact List.Pairwise.sublist (List.take_sublist _ _) (sortDesc_sorted _)
  · intro it hit
    have hmem : it ∈ sortDesc
        ((chunkResultsOf retrievalResult).map convChunk ++
         (graphitiEntitiesOf retrievalResult).map convGraphitiEntity ++
         (cogneeEntitiesOf retrievalResult).map convCogneeEntity) :=
      (List.take_sublist _ _).subset hit
    rw [mem_sortDesc] at hmem
    rcases List.mem_append.mp hmem with h12 | h3
    · rcases List.mem_append.mp h12 with h1 | h2
      · obtain ⟨c, hc, hconv⟩ := List.mem_map.mp h1
        exact Or.inl ⟨c, hc, hconv.symm, by rw [← hconv]; rfl⟩
      · obtain ⟨e, he, hconv⟩ := List.mem_map.mp h2
        exact Or.inr (Or.inl ⟨e, he, hconv.symm, by rw [← hconv]; rfl⟩)
    · obtain ⟨e, he, hconv⟩ := List.mem_map.mp h3
      exact Or.inr (Or.inr ⟨e, he, hconv.symm, by rw [← hconv]; rfl⟩)

/-- The parts of a rejected axios promise the handlers read:
`error.response?.data?.detail` and `error.message`. -/
structure JsError where
  responseDetail : Option (List Char)
  message : Option (List Char)
deriving DecidableEq

/-- The user's choice in a `Modal.confirm` dialog. -/
inductive ConfirmChoice where
  | ok
  | cancel
deriving DecidableEq

/-- Observable user-interface / network actions of the delete and build
flows, in program order. -/
inductive UAction where
  | toastWarn
  | toastSuccess
  | toastError
  | confirmShown
  | callStep1Graphiti
  | callStep2Cognee
  | callDeleteGraphiti
  | callDeleteCognee
  | callDeleteKbDocument
  | callGetGraphitiResult
deriving DecidableEq

/-- Response of `step1GraphitiEpisode` / `step2CogneeBuild`, restricted
to the fields the flows branch on. -/
structure BuildResp where
  success : Bool
  needs_confirmation : Bool
deriving DecidableEq

/-- Response of `getGraphitiResult`, restricted to the fields read. -/
structure GraphitiResultResp where
  success : Bool
  group_id : Option (List Char)
deriving DecidableEq

/-- Response of `deleteGraphitiGraph`. -/
structure DeleteResp where
  success : Bool
deriving DecidableEq

/-- `handleDeleteGraph` of the Graphiti tab: requires a selected
document; fetches the execution summary when no `group_id` is cached
(warning / error return paths); then shows the destructive
`Modal.confirm`; only its `onOk` invokes `deleteGraphitiGraph`,
toasting per outcome.  Post-delete state clearing is not modelled. -/
def handleDeleteGraph (selectedDocumentId : Option (List Char))
    (execGroupId : Option (List Char))
    (getResult : Except JsError GraphitiResultResp)
    (choice : ConfirmChoice)
    (deleteResult : Except JsError DeleteResp) : List UAction :=
  if !(truthyStr selectedDocumentId) then [UAction.toastWarn]
  else if truthyStr execGroupId then
    UAction.confirmShown ::
    (match choice with
     | ConfirmChoice.cancel => []
     | ConfirmChoice.ok =>
       UAction.callDeleteGraphiti ::
       (match deleteResult with
        | Except.ok res =>
          if res.success then [UAction.toastSuccess] else [UAction.toastWarn]
        | Except.error _ => [UAction.toastError]))
  else
    match getResult with
    | Except.error _ => [UAction.callGetGraphitiResult, UAction.toastError]
    | Except.ok res =>
      if res.success && truthyStr res.group_id then
        UAction.callGetGraphitiResult :: UAction.confirmShown ::
        (match choice with
         | ConfirmChoice.cancel => []
         | ConfirmChoice.ok =>
           UAction.callDeleteGraphiti ::
           (match deleteResult with
            | Except.ok dres =>
              if dres.success then [UAction.toastSuccess] else [UAction.toastWarn]
            | Except.error _ => [UAction.toastError]))
      else [UAction.callGetGraphitiResult, UAction.toastWarn]

/-- `handleDeleteDocument` of the knowledge-base detail view: the
confirm dialog is always shown; its `onOk` returns silently without a
selected knowledge base, and otherwise invokes
`deleteKnowledgeBaseDocument`. -/
def handleDeleteDocument (selectedKB : Option (List Char))
    (choice : ConfirmChoice)
    (deleteResult : Except JsError Unit) : List UAction :=
  UAction.confirmShown ::
  (match choice with
   | ConfirmChoice.cancel => []
   | ConfirmChoice.ok =>
     if !(truthyStr selectedKB) then []
     else
       UAction.callDeleteKbDocument ::
       (match deleteResult with
        | Except.ok _ => [UAction.toastSuccess]
        | Except.error _ => [UAction.toastError]))

/-- `handleDeleteGraph` of the Cognee pane in the knowledge-base detail
view: requires a selected document, then confirm; only `onOk` invokes
`deleteCogneeGraph`. -/
def handleDeleteCogneeGraph (selectedDocumentId : Option (List Char))
    (choice : ConfirmChoice)
    (deleteResult : Except JsError Unit) : List UAction :=
  if !(truthyStr selectedDocumentId) then [UAction.toastWarn]
  else
    UAction.confirmShown ::
    (match choice with
     | ConfirmChoice.cancel => []
     | ConfirmChoice.ok =>
       UAction.callDeleteCognee ::
       (match deleteResult with
        | Except.ok _ => [UAction.toastSuccess]
        | Except.error _ => [UAction.toastError]))

/-- `executeGraphitiWithMode`: one `step1GraphitiEpisode` call per
round (the round's response is the next list element; an empty list
models no further response).  A `needs_confirmation` response shows the
confirm dialog and resets `executing`; `onOk` deletes the old episode
and re-executes recursively, `onCancel` resets state.  Otherwise a
failed response toasts an error; a successful one toasts success and
loads the result summary.  Returns the actions and the final
`executing` flag. -/
def executeGraphitiWithMode :
    List (Except JsError BuildResp) → ConfirmChoice →
      Except JsError Unit → List UAction × Bool
  | [], _, _ => ([], false)
  | res :: rest, choice, delRes =>
    match res with
    | Except.error _ => ([UAction.callStep1Graphiti, UAction.toastError], false)
    | Except.ok r =>
      if r.needs_confirmation then
        match choice with
        | ConfirmChoice.cancel =>
          ([UAction.callStep1Graphiti, UAction.confirmShown], false)
        | ConfirmChoice.ok =>
          match delRes with
          | Except.error _ =>
            ([UAction.callStep1Graphiti, UAction.confirmShown,
              UAction.callDeleteGraphiti, UAction.toastError], false)
          | Except.ok _ =>
            let cont := executeGraphitiWithMode rest choice delRes
            ([UAction.callStep1Graphiti, UAction.confirmShown,
              UAction.callDeleteGraphiti, UAction.toastSuccess] ++ cont.1,
             cont.2)
      else if r.success = false then
        ([UAction.callStep1Graphiti, UAction.toastError], false)
      else
        ([UAction.callStep1Graphiti, UAction.toastSuccess,
          UAction.callGetGraphitiResult], false)

/-- The Cognee `handleExecute(skipConfirmation)`: one `step2CogneeBuild`
call per round; when not skipping, a `needs_confirmation` response
shows the confirm dialog, whose `onOk` deletes the old graph and
re-executes with `skipConfirmation = true`; `onCancel` resets state.
A response with `success === false` and no confirmation request toasts
an error; otherwise the result is accepted. -/
def handleExecuteCognee :
    List (Except JsError BuildResp) → Bool → ConfirmChoice →
      Except JsError Unit → List UAction × Bool
  | [], _, _, _ => ([], false)
  | res :: rest, skipConfirmation, choice, delRes =>
    match res with
    | Except.error _ => ([UAction.callStep2Cognee, UAction.toastError], false)
    | Except.ok r =>
      if !skipConfirmation && r.needs_confirmation then
        match choice with
        | ConfirmChoice.cancel =>
          ([UAction.callStep2Cognee, UAction.confirmShown], false)
        | ConfirmChoice.ok =>
          match delRes with
          | Except.error _ =>
            ([UAction.callStep2Cognee, UAction.confirmShown,
              UAction.callDeleteCognee, UAction.toastError], false)
          | Except.ok _ =>
            let cont := handleExecuteCognee rest true choice delRes
            ([UAction.callStep2Cognee, UAction.confirmShown,
              UAction.callDeleteCognee, UAction.toastSuccess] ++ cont.1,
             cont.2)
      else if r.success = false && !r.needs_confirmation then
        ([UAction.callStep2Cognee, UAction.toastError], false)
      else
        ([UAction.callStep2Cognee, UAction.toastSuccess], false)

theorem hdg_delete_confirm (sel grp : Option (List Char))
    (getRes : Except JsError GraphitiResultResp) (choice : ConfirmChoice)
    (delRes : Except JsError DeleteResp)
    (h : UAction.callDeleteGraphiti ∈ handleDeleteGraph sel grp getRes choice delRes) :
    UAction.confirmShown ∈ handleDeleteGraph sel grp getRes choice delRes ∧
      choice = ConfirmChoice.ok := by
  cases choice with
  | cancel =>
    exfalso
    rw [handleDeleteGraph.eq_def] at h
    by_cases h1 : truthyStr sel
    · by_cases h2 : truthyStr grp
      · simp [h1, h2] at h
      · cases getRes with
        | error e => simp [h1, h2] at h
        | ok res =>
          by_cases h3 : (res.success && truthyStr res.group_id) = true
          · simp [h1, h2, h3] at h
          · simp [h1, h2, h3] at h
    · simp [h1] at h
  | ok =>
    refine ⟨?_, rfl⟩
    rw [handleDeleteGraph.eq_def] at h ⊢
    by_cases h1 : truthyStr sel
    · by_cases h2 : truthyStr grp
      · simp [h1, h2]
      · cases getRes with
        | error e => simp [h1, h2] at h
        | ok res =>
          by_cases h3 : (res.success && truthyStr res.group_id) = true
          · simp [h1, h2, h3]
          · simp [h1, h2, h3] at h
    · simp [h1] at h

theorem hdd_delete_confirm (kb : Option (List Char)) (choice : ConfirmChoice)
    (delRes : Except JsError Unit)
    (h : UAction.callDeleteKbDocument ∈ handleDeleteDocument kb choice delRes) :
    UAction.confirmShown ∈ handleDeleteDocument kb choice delRes ∧
      choice = ConfirmChoice.ok := by
  cases choice with
  | cancel => exfalso; simp [handleDeleteDocument] at h
  | ok => exact ⟨by simp [handleDeleteDocument], rfl⟩

theorem hdc_delete_confirm (sel : Option (List Char)) (choice : ConfirmChoice)
    (delRes : Except JsError Unit)
    (h : UAction.callDeleteCognee ∈ handleDeleteCogneeGraph sel choice delRes) :
    UAction.confirmShown ∈ handleDeleteCogneeGraph sel choice delRes ∧
      choice = ConfirmChoice.ok := by
  cases choice with
  | cancel =>
    exfalso
    by_cases h1 : truthyStr sel <;> simp [handleDeleteCogneeGraph, h1] at h
  | ok =>
    refine ⟨?_, rfl⟩
    by_cases h1 : truthyStr sel
    · simp [handleDeleteCogneeGraph, h1]
    · exfalso; simp [handleDeleteCogneeGraph, h1] at h

theorem execGraphiti_delete_confirm (rs : List (Except JsError BuildResp))
    (choice : ConfirmChoice) (delRes : Except JsError Unit)
    (h : UAction.callDeleteGraphiti ∈ (executeGraphitiWithMode rs choice delRes).1) :
    UAction.confirmShown ∈ (executeGraphitiWithMode rs choice delRes).1 ∧
      choice = ConfirmChoice.ok := by
  induction rs with
  | nil => cases h
  | cons res rest ih =>
    cases res with
    | error e => simp [executeGraphitiWithMode] at h
    | ok r =>
      by_cases hnc : r.needs_confirmation
      · cases choice with
        | cancel => simp [executeGraphitiWithMode, hnc] at h
        | ok =>
          refine ⟨?_, rfl⟩
          cases delRes with
          | error e => simp [executeGraphitiWithMode, hnc]
          | ok u => simp [executeGraphitiWithMode, hnc]
      · rw [executeGraphitiWithMode.eq_def] at h
        by_cases hs : r.success = false <;> simp [hnc, hs] at h

theorem execCognee_delete_confirm (rs : List (Except JsError BuildResp))
    (skip : Bool) (choice : ConfirmChoice) (delRes : Except JsError Unit)
    (h : UAction.callDeleteCognee ∈ (handleExecuteCognee rs skip choice delRes).1) :
    UAction.confirmShown ∈ (handleExecuteCognee rs skip choice delRes).1 ∧
      choice = ConfirmChoice.ok := by
  induction rs generalizing skip with
  | nil => cases h
  | cons res rest ih =>
    cases res with
    | error e => simp [handleExecuteCognee] at h
    | ok r =>
      by_cases hnc : (!skip && r.needs_confirmation) = true
      · cases choice with
        | cancel => simp [handleExecuteCognee, hnc] at h
        | ok =>
          refine ⟨?_, rfl⟩
          cases delRes with
          | error e => simp [handleExecuteCognee, hnc]
          | ok u => simp [handleExecuteCognee, hnc]
      · rw [handleExecuteCognee.eq_def] at h
        simp only [hnc, Bool.false_eq_true, ite_false] at h
        split at h <;> simp at h

/-- C2: in every modelled front-end interaction, the destructive
endpoints `deleteGraphitiGraph`, `deleteCogneeGraph` and
`deleteKnowledgeBaseDocument` are invoked only when the interaction
showed a `Modal.confirm` dialog and the user chose OK; choosing Cancel
never produces a delete call.  One conjunct per flow (both delete-call
sites of each endpoint are covered), plus the explicit Cancel
corollaries. -/
theorem c2_delete_requires_confirmation :
    (∀ sel grp getRes choice delRes,
       UAction.callDeleteGraphiti ∈ handleDeleteGraph sel grp getRes choice delRes →
         UAction.confirmShown ∈ handleDeleteGraph sel grp getRes choice delRes ∧
         choice = ConfirmChoice.ok) ∧
    (∀ sel grp getRes delRes,
       UAction.callDeleteGraphiti ∉
         handleDeleteGraph sel grp getRes ConfirmChoice.cancel delRes) ∧
    (∀ kb choice delRes,
       UAction.callDeleteKbDocument ∈ handleDeleteDocument kb choice delRes →
         UAction.confirmShown ∈ handleDeleteDocument kb choice delRes ∧
         choice = ConfirmChoice.ok) ∧
    (∀ kb delRes,
       UAction.callDeleteKbDocument ∉
         handleDeleteDocument kb ConfirmChoice.cancel delRes) ∧
    (∀ sel choice delRes,
       UAction.callDeleteCognee ∈ handleDeleteCogneeGraph sel choice delRes →
         UAction.confirmShown ∈ handleDeleteCogneeGraph sel choice delRes ∧
         choice = ConfirmChoice.ok) ∧
    (∀ rs choice delRes,
       UAction.callDeleteGraphiti ∈ (executeGraphitiWithMode rs choice delRes).1 →
         UAction.confirmShown ∈ (executeGraphitiWithMode rs choice delRes).1 ∧
         choice = ConfirmChoice.ok) ∧
    (∀ rs skip choice delRes,
       UAction.callDeleteCognee ∈ (handleExecuteCognee rs skip choice delRes).1 →
         UAction.confirmShown ∈ (handleExecuteCognee rs skip choice delRes).1 ∧
         choice = ConfirmChoice.ok) := by
  refine ⟨hdg_delete_confirm, ?_, hdd_delete_confirm, ?_, hdc_delete_confirm,
    execGraphiti_delete_confirm, execCognee_delete_confirm⟩
  · intro sel grp getRes delRes h
    exact ConfirmChoice.noConfusion (hdg_delete_confirm sel grp getRes _ delRes h).2
  · intro kb delRes h
    exact ConfirmChoice.noConfusion (hdd_delete_confirm kb _ delRes h).2

/-- Witness for C2 at a concrete interaction: a cached group id, the OK
choice, and a successful delete. -/
theorem c2_delete_requires_confirmation_witness :
    UAction.confirmShown ∈
      handleDeleteGraph (some ['D', '1']) (some ['G', '1'])
        (Except.ok ⟨true, some ['G', '1']⟩) ConfirmChoice.ok
        (Except.ok ⟨true⟩) :=
  (c2_delete_requires_confirmation.1 (some ['D', '1']) (some ['G', '1'])
    (Except.ok ⟨true, some ['G', '1']⟩) ConfirmChoice.ok (Except.ok ⟨true⟩)
    (by decide)).1

theorem execGraphiti_starts_with_build (res : Except JsError BuildResp)
    (rest : List (Except JsError BuildResp)) (choice : ConfirmChoice)
    (delRes : Except JsError Unit) :
    (executeGraphitiWithMode (res :: rest) choice delRes).1.head? =
      some UAction.callStep1Graphiti := by
  cases res with
  | error e => rfl
  | ok r =>
    rw [executeGraphitiWithMode.eq_def]
    by_cases hnc : r.needs_confirmation
    · cases choice with
      | cancel => simp [hnc]
      | ok => cases delRes with
        | error e => simp [hnc]
        | ok u => simp [hnc]
    · simp only [hnc, Bool.false_eq_true, ite_false]
      split <;> rfl

theorem execCognee_starts_with_build (res : Except JsError BuildResp)
    (rest : List (Except JsError BuildResp)) (skip : Bool)
    (choice : ConfirmChoice) (delRes : Except JsError Unit) :
    (handleExecuteCognee (res :: rest) skip choice delRes).1.head? =
      some UAction.callStep2Cognee := by
  cases res with
  | error e => rfl
  | ok r =>
    rw [handleExecuteCognee.eq_def]
    by_cases hnc : (!skip && r.needs_confirmation) = true
    · cases choice with
      | cancel => simp [hnc]
      | ok => cases delRes with
        | error e => simp [hnc]
        | ok u => simp [hnc]
    · simp only [hnc, Bool.false_eq_true, ite_false]
      split <;> rfl

/-- C3: when a graph-build call returns `needs_confirmation === true`,
the flow stops and shows the confirm dialog with `executing` reset:
Cancel produces no delete and no second build call; OK (with the
delete succeeding) produces the delete call followed by a rerun whose
first action is the second build call.  First conjunct: the Graphiti
`executeGraphitiWithMode`; second: the Cognee `handleExecute`. -/
theorem c3_needs_confirmation_flow :
    (∀ (r : BuildResp) (rest : List (Except JsError BuildResp))
       (delRes : Except JsError Unit),
       r.needs_confirmation = true →
       (executeGraphitiWithMode (Except.ok r :: rest) ConfirmChoice.cancel delRes =
          ([UAction.callStep1Graphiti, UAction.confirmShown], false)) ∧
       (delRes = Except.ok () →
          (executeGraphitiWithMode (Except.ok r :: rest) ConfirmChoice.ok delRes).1 =
            [UAction.callStep1Graphiti, UAction.confirmShown,
             UAction.callDeleteGraphiti, UAction.toastSuccess] ++
              (executeGraphitiWithMode rest ConfirmChoice.ok delRes).1) ∧
       (∀ res2 rest2, rest = res2 :: rest2 →
          (executeGraphitiWithMode rest ConfirmChoice.ok delRes).1.head? =
            some UAction.callStep1Graphiti)) ∧
    (∀ (r : BuildResp) (rest : List (Except JsError BuildResp))
       (delRes : Except JsError Unit),
       r.needs_confirmation = true →
       (handleExecuteCognee (Except.ok r :: rest) false ConfirmChoice.cancel delRes =
          ([UAction.callStep2Cognee, UAction.confirmShown], false)) ∧
       (delRes = Except.ok () →
          (handleExecuteCognee (Except.ok r :: rest) false ConfirmChoice.ok delRes).1 =
            [UAction.callStep2Cognee, UAction.confirmShown,
             UAction.callDeleteCognee, UAction.toastSuccess] ++
              (handleExecuteCognee rest true ConfirmChoice.ok delRes).1) ∧
       (∀ res2 rest2, rest = res2 :: rest2 →
          (handleExecuteCognee rest true ConfirmChoice.ok delRes).1.head? =
            some UAction.callStep2Cognee)) := by
  constructor
  · intro r rest delRes hnc
    refine ⟨?_, ?_, ?_⟩
    · rw [executeGraphitiWithMode.eq_def]
      simp [hnc]
    · intro hdel
      subst hdel
      rw [executeGraphitiWithMode.eq_def]
      simp [hnc]
    · intro res2 rest2 hrest
      subst hrest
      exact execGraphiti_starts_with_build res2 rest2 ConfirmChoice.ok delRes
  · intro r rest delRes hnc
    refine ⟨?_, ?_, ?_⟩
    · rw [handleExecuteCognee.eq_def]
      simp [hnc]
    · intro hdel
      subst hdel
      rw [handleExecuteCognee.eq_def]
      simp [hnc]
    · intro res2 rest2 hrest
      subst hrest
      exact execCognee_starts_with_build res2 rest2 true ConfirmChoice.ok delRes

/-- Witness for C3: a confirmation-requesting first response, a
successful delete, and one further (successful) build response. -/
theorem c3_needs_confirmation_flow_witness :
    (executeGraphitiWithMode
       [Except.ok ⟨false, true⟩, Except.ok ⟨true, false⟩]
       ConfirmChoice.ok (Except.ok ())).1 =
      [UAction.callStep1Graphiti, UAction.confirmShown,
       UAction.callDeleteGraphiti, UAction.toastSuccess] ++
        (executeGraphitiWithMode [Except.ok ⟨true, false⟩]
          ConfirmChoice.ok (Except.ok ())).1 :=
  ((c3_needs_confirmation_flow.1 ⟨false, true⟩ [Except.ok ⟨true, false⟩]
    (Except.ok ()) rfl).2.1) rfl

/-- The user-visible effect of one `catch` handler: the toast text (if
any) passed to `message.error`, and whether the error was written to
the browser console. -/
structure CatchEffect where
  toast : Option (List Char)
  consoleLogged : Bool
deriving DecidableEq

/-- The `catch` of the smart-retrieval tab `handleExecute`:
`console.error('执行失败:', error)` then
`message.error('执行失败: ' + (error.response?.data?.detail || error.message || '未知错误'))`. -/
def handleExecuteCatch (error : JsError) : CatchEffect :=
  { toast := some ("执行失败: ".toList ++
      jsOrStr error.responseDetail (jsOrStr error.message "未知错误".toList))
    consoleLogged := true }

/-- The `catch` of `handleLoadEpisodeBody`: a generic
`message.error('加载 Episode Body 失败')` and no console write. -/
def handleLoadEpisodeBodyCatch (_ : JsError) : CatchEffect :=
  { toast := some "加载 Episode Body 失败".toList
    consoleLogged := false }

/-- The `catch` of `handleDocumentChange`: the handler only resets view
state; both the `message.error` call and any console write are absent
(commented out in the source). -/
def handleDocumentChangeCatch (_ : JsError) : CatchEffect :=
  { toast := none
    consoleLogged := false }

/-- The error-handling contract C5 asserts of every network call: a
`message.error` toast that contains the server-provided detail when one
is present (generic fallback otherwise), plus a console write. -/
def uniformCatchContract (handler : JsError → CatchEffect) : Prop :=
  ∀ e : JsError,
    (handler e).consoleLogged = true ∧
    ∃ t, (handler e).toast = some t ∧
      (truthyStr e.responseDetail = true →
        ∃ pre post, t = pre ++ e.responseDetail.getD [] ++ post)

/-- C5 counterexample: the cited `handleDocumentChange` catch handler
swallows the rejection — no `message.error` and no console write — so
the universal claim fails at this handler (at any error, e.g. one with
no detail and no message). -/
theorem c5_counterexample_document_change :
    ¬ uniformCatchContract handleDocumentChangeCatch := by
  intro h
  have h1 := (h ⟨none, none⟩).1
  simp [handleDocumentChangeCatch] at h1

/-- C5 (amended): the smart-retrieval execution catch follows the
catch-toast-log contract (toast carrying the server detail when
present, generic fallback otherwise, and a console write), but the
contract is not uniform: `handleLoadEpisodeBody` toasts only a generic
text without logging, and `handleDocumentChange` suppresses both. -/
theorem c5_catch_behaviour_amended :
    uniformCatchContract handleExecuteCatch ∧
    (∀ e, (handleLoadEpisodeBodyCatch e).toast =
        some "加载 Episode Body 失败".toList ∧
      (handleLoadEpisodeBodyCatch e).consoleLogged = false) ∧
    (∀ e, (handleDocumentChangeCatch e).toast = none ∧
      (handleDocumentChangeCatch e).consoleLogged = false) := by
  refine ⟨?_, fun e => ⟨rfl, rfl⟩, fun e => ⟨rfl, rfl⟩⟩
  intro e
  refine ⟨rfl, _, rfl, ?_⟩
  intro htr
  refine ⟨"执行失败: ".toList, [], ?_⟩
  cases hd : e.responseDetail with
  | none => rw [hd] at htr; cases htr
  | some s =>
    rw [hd] at htr
    have hs : s.isEmpty = false := by
      cases hs : s.isEmpty
      · rfl
      · rw [truthyStr, hs] at htr; cases htr
    simp [jsOrStr, hs]

/-- Witness for the amended C5 at a concrete error carrying a detail. -/
theorem c5_catch_behaviour_amended_witness :
    (handleExecuteCatch ⟨some ['4', '2', '2'], none⟩).consoleLogged = true :=
  (c5_catch_behaviour_amended.1 ⟨some ['4', '2', '2'], none⟩).1

/-- How the `group_ids` key appears in the JSON request body: absent,
present with value `null`, or present with a list of group IDs. -/
inductive GroupIdsField where
  | absent
  | null
  | ids (l : List (List Char))
deriving DecidableEq

/-- The body of `POST /intelligent-chat/smart-retrieval`: exactly the
keys `query`, `top_k`, `min_score`, `enable_refine`, and the
`group_ids` key in one of its three shapes. -/
structure SmartRetrievalBody where
  query : List Char
  top_k : Int
  min_score : Int
  enable_refine : Bool
  group_ids : GroupIdsField
deriving DecidableEq

/-- The smart-retrieval tab's request: `{query, top_k, min_score,
enable_refine}` with `params.group_ids = selectedGroupIds.value` added
only when `searchMode === 'selected'` (otherwise the key is absent). -/
def buildSmartRetrievalParamsTab (queryText : List Char)
    (topK minScore : Int) (enableRefine : Bool) (searchMode : List Char)
    (selectedGroupIds : List (List Char)) : SmartRetrievalBody :=
  { query := queryText
    top_k := topK
    min_score := minScore
    enable_refine := enableRefine
    group_ids :=
      if searchMode = "selected".toList then GroupIdsField.ids selectedGroupIds
      else GroupIdsField.absent }

/-- The LLM-generate tab's request: the object literal always carries a
`group_ids` key, `selectedDocumentGroupIds.value` when
`retrievalScope === 'specified'` and the JSON value `null` otherwise. -/
def buildSmartRetrievalParamsLLMTab (userQuery : List Char)
    (topK minScore : Int) (enableRefine : Bool) (retrievalScope : List Char)
    (selectedDocumentGroupIds : List (List Char)) : SmartRetrievalBody :=
  { query := userQuery
    top_k := topK
    min_score := minScore
    enable_refine := enableRefine
    group_ids :=
      if retrievalScope = "specified".toList then
        GroupIdsField.ids selectedDocumentGroupIds
      else GroupIdsField.null }

/-- C6 counterexample: with the all-documents scope, the LLM-generate
tab's `handleExecute` sends `group_ids: null` — the key is present with
value `null`, not absent as the claim states. -/
theorem c6_counterexample_llm_tab_null :
    (buildSmartRetrievalParamsLLMTab ['q'] 20 60 true "all".toList
      []).group_ids = GroupIdsField.null ∧
    GroupIdsField.null ≠ GroupIdsField.absent := by
  exact ⟨by decide, by decide⟩

/-- C6 (amended): both callers send exactly `{query, top_k, min_score,
enable_refine, group_ids?}`, and `group_ids` carries the selected
document group IDs when the specified-document scope is chosen; with
the all-documents scope the smart-retrieval tab omits the key, while
the LLM-generate tab sends it with value `null`. -/
theorem c6_group_ids_amended :
    (∀ q tk ms er sel mode, mode ≠ "selected".toList →
       buildSmartRetrievalParamsTab q tk ms er mode sel =
         ⟨q, tk, ms, er, GroupIdsField.absent⟩) ∧
    (∀ q tk ms er sel,
       buildSmartRetrievalParamsTab q tk ms er "selected".toList sel =
         ⟨q, tk, ms, er, GroupIdsField.ids sel⟩) ∧
    (∀ q tk ms er sel,
       buildSmartRetrievalParamsLLMTab q tk ms er "specified".toList sel =
         ⟨q, tk, ms, er, GroupIdsField.ids sel⟩) ∧
    (∀ q tk ms er sel scope, scope ≠ "specified".toList →
       buildSmartRetrievalParamsLLMTab q tk ms er scope sel =
         ⟨q, tk, ms, er, GroupIdsField.null⟩) := by
  refine ⟨?_, ?_, ?_, ?_⟩
  · intro q tk ms er sel mode hmode
    rw [buildSmartRetrievalParamsTab, if_neg hmode]
  · intro q tk ms er sel
    rw [buildSmartRetrievalParamsTab, if_pos rfl]
  · intro q tk ms er sel
    rw [buildSmartRetrievalParamsLLMTab, if_pos rfl]
  · intro q tk ms er sel scope hscope
    rw [buildSmartRetrievalParamsLLMTab, if_neg hscope]

/-- Witness for the amended C6 at the all-documents scope of each tab. -/
theorem c6_group_ids_amended_witness :
    buildSmartRetrievalParamsTab ['q'] 20 60 true "all".toList [] =
      ⟨['q'], 20, 60, true, GroupIdsField.absent⟩ :=
  c6_group_ids_amended.1 ['q'] 20 60 true [] "all".toList (by decide)
